import Mathlib

/-!
Verification development for the blockchain ticket-storage layer
(`blockchain_ticket_storage.py`).

Bytes are modelled as `List Nat` (each entry a value `0 ≤ b < 256` in all
reachable states); machine packing uses explicit `% 2^w`.  Python `Decimal`
amounts are modelled as exact rationals `ℚ`.  Python exceptions are modelled
with `Except PyErr`.  The external zstd compressor/decompressor is not part of
this repository and is modelled as a pair of abstract function parameters.  The
node RPC endpoint is modelled as an `Oracle` of response functions together
with a `World` state holding the faithful chain: broadcasting a transaction
records its txid together with the scripts of its outputs, and
`getrawtransaction`/`decoderawtransaction` return exactly what was broadcast.
-/

/-- Error kinds for modelled Python exceptions. `rpc c` is `JSONRPCException`
with error code `c`; `insufficientFunds` is the `Exception("Insufficient
funds")` raised by `select_txins`; `attrNone` is the `AttributeError` raised by
`None.encode()`; `assertFail` is a failed `assert`; `indexErr` is an
`IndexError`; `otherErr` covers remaining exception types (e.g. `binascii`
failures, `ZeroDivisionError`). -/
inductive PyErr where
  | rpc (code : Int)
  | insufficientFunds
  | attrNone
  | assertFail
  | indexErr
  | otherErr
deriving DecidableEq, Repr

/-- Byte strings (and ASCII strings) are lists of naturals. -/
abbrev Bytes := List Nat

/-- Little-endian packing of `n` into `w` bytes, i.e. `struct.pack` with an
unsigned little-endian format of width `w` (values are reduced mod `2^(8w)`;
every call site stays in range, where Python would instead raise). -/
def toBytesLE : Nat → Nat → Bytes
  | 0, _ => []
  | w + 1, n => n % 256 :: toBytesLE w (n / 256)

/-- Big-endian 2-byte packing, i.e. Python `i.to_bytes(2, 'big')` (callers keep
`i < 65536`, where Python would instead raise `OverflowError`). -/
def toBytes2BE (n : Nat) : Bytes := [n / 256 % 256, n % 256]

/-- Big-endian interpretation of a byte string, i.e. Python
`int.from_bytes(b, 'big')` (which maps the empty string to 0). -/
def bytesToNatBE (b : Bytes) : Nat := b.foldl (fun acc x => acc * 256 + x) 0

/-- Lowercase hex digit for a value `< 16`, as its ASCII code. -/
def hexChar (n : Nat) : Nat := if n < 10 then 48 + n else 87 + n

/-- Model of `binascii.hexlify`: each byte becomes two lowercase hex ASCII characters. -/
def hexlify (b : Bytes) : Bytes := b.flatMap fun x => [hexChar (x / 16), hexChar (x % 16)]

/-- Value of one hex ASCII character, accepting `0-9`, `a-f`, `A-F`. -/
def hexVal (c : Nat) : Option Nat :=
  if 48 ≤ c ∧ c ≤ 57 then some (c - 48)
  else if 97 ≤ c ∧ c ≤ 102 then some (c - 87)
  else if 65 ≤ c ∧ c ≤ 70 then some (c - 55)
  else none

/-- Model of `binascii.unhexlify` (= `unhexstr` in the source): decode a hex ASCII
string to bytes; `none` models the `binascii.Error` raised on odd length or a
non-hex character. -/
def unhexlify : Bytes → Option Bytes
  | [] => some []
  | a :: b :: r =>
    match hexVal a, hexVal b, unhexlify r with
    | some x, some y, some t => some ((16 * x + y) :: t)
    | _, _, _ => none
  | [_] => none

/-- Model of `varint` from the source: one byte below `0xFD`, otherwise `0xFD` plus two
little-endian bytes when `n < 0xFFFF`; `none` models the `assert False` hit by
every other value (note the strict bound: `0xFFFF` itself is rejected). -/
def varint (n : Nat) : Option Bytes :=
  if n < 0xfd then some [n]
  else if n < 0xffff then some (0xfd :: toBytesLE 2 n)
  else none

/-- Modelled from the spec: the varint decoder (`decode` in spec §8 item 7) is
not part of the source; this is the evident inverse of the spec's layout — a
first byte below `0xFD` denotes itself, `0xFD` is followed by the value as two
little-endian bytes. -/
def decodeVarint : Bytes → Option Nat
  | [] => none
  | b :: r =>
    if b < 0xfd then if r = [] then some b else none
    else if b = 0xfd then
      match r with
      | [lo, hi] => some (lo + 256 * hi)
      | _ => none
    else none

/-- Model of `pushdata` from the source: Bitcoin script push prefix by length class. -/
def pushdata (d : Bytes) : Bytes :=
  if d.length < 76 then d.length :: d
  else if d.length < 256 then 76 :: d.length :: d
  else if d.length < 65536 then 77 :: toBytesLE 2 d.length ++ d
  else 78 :: toBytesLE 4 d.length ++ d

/-- Model of `build_p2pkh_output_script`:
`OP_DUP OP_HASH160 <len> <pubkey_hash> OP_EQUALVERIFY OP_CHECKSIG`. -/
def build_p2pkh_output_script (pubkeyHash : Bytes) : Bytes :=
  [0x76, 0xa9, pubkeyHash.length] ++ pubkeyHash ++ [0x88, 0xac]

/-- The data-carrying output script built identically in `store_data_chunk`
(lines 362-364) and `store_chunk_txids` (lines 389-392):
`OP_1 <len> <fake_pubkey> OP_1 OP_CHECKMULTISIG` followed by
`pushdata(body)` appended when forming the txout. -/
def dataOutputScript (fakePubkey body : Bytes) : Bytes :=
  [0x51, fakePubkey.length] ++ fakePubkey ++ [0x51, 0xae] ++ pushdata body

/-- A transaction output: `(value, scriptPubKey)` with the value a `Decimal`
modelled as `ℚ`. -/
abbrev TxOut := ℚ × Bytes

/-- Decidable equality of modelled Python results (not provided by the core
library for `Except`). -/
instance {ε α : Type} [DecidableEq ε] [DecidableEq α] : DecidableEq (Except ε α) := fun x y =>
  match x, y with
  | .error a, .error b =>
    if h : a = b then .isTrue (congrArg Except.error h)
    else .isFalse (fun hc => h (Except.error.inj hc))
  | .ok a, .ok b =>
    if h : a = b then .isTrue (congrArg Except.ok h)
    else .isFalse (fun hc => h (Except.ok.inj hc))
  | .error _, .ok _ => .isFalse (fun hc => Except.noConfusion hc)
  | .ok _, .error _ => .isFalse (fun hc => Except.noConfusion hc)

/-- The rational `n / 1`.  The model's `Decimal` arithmetic is written with
the four explicit `mkRat` operations below rather than `ℚ`'s `+ - * /`
because the latter are `@[irreducible]` and block evaluation of the model on
concrete inputs; each is proved equal to the corresponding `ℚ` operation
(`qOfNat_eq` and friends), so the semantics is exactly exact-rational
arithmetic. -/
def qOfNat (n : Nat) : ℚ := mkRat n 1

/-- Exact rational addition (equals `a + b`, see `qAdd_eq`). -/
def qAdd (a b : ℚ) : ℚ := mkRat (a.num * b.den + b.num * a.den) (a.den * b.den)

/-- Exact rational subtraction (equals `a - b`, see `qSub_eq`). -/
def qSub (a b : ℚ) : ℚ := mkRat (a.num * b.den - b.num * a.den) (a.den * b.den)

/-- Exact rational multiplication (equals `a * b`, see `qMul_eq`). -/
def qMul (a b : ℚ) : ℚ := mkRat (a.num * b.num) (a.den * b.den)

/-- Exact rational division by a natural number (equals `a / n`, see
`qDivNat_eq`; the source only ever divides amounts by the integer constants
2 and 1000). -/
def qDivNat (a : ℚ) (n : Nat) : ℚ := mkRat a.num (a.den * n)

/-- An entry of `listunspent` with the fields the code relies upon. -/
structure Utxo where
  txid : Bytes
  vout : Nat
  amount : ℚ
  address : Bytes
  spendable : Bool
  generated : Bool
  confirmations : Nat
deriving DecidableEq, Repr

/-- Python `int(q)` for an exact `Decimal`: truncation toward zero. -/
def ratTruncInt (q : ℚ) : Int := Int.tdiv q.num (q.den : Int)

/-- Model of `struct.pack('<q', v)`: 8-byte little-endian two's-complement encoding;
`none` models the `struct.error` on values outside the signed 64-bit range. -/
def le8signed (v : Int) : Option Bytes :=
  if -(2 ^ 63) ≤ v ∧ v < 2 ^ 63 then some (toBytesLE 8 (Int.emod v (2 ^ 64)).toNat)
  else none

/-- Model of `packtxin(prevout, scriptSig, seq)`: reversed `prevout[0]`, 4-byte LE
`prevout[1]`, varint-prefixed scriptSig, 4-byte LE sequence. -/
def packtxin (prevout : Bytes × Nat) (scriptSig : Bytes) (seq : Nat) : Option Bytes :=
  (varint scriptSig.length).map fun v =>
    prevout.1.reverse ++ toBytesLE 4 prevout.2 ++ v ++ scriptSig ++ toBytesLE 4 seq

/-- Model of `packtxout(value, scriptPubKey)` with `coin = 100000`: signed 8-byte LE
`int(value * coin)`, varint script length, script. -/
def packtxout (value : ℚ) (scriptPubKey : Bytes) : Option Bytes := do
  let vb ← le8signed (ratTruncInt (qMul value (qOfNat 100000)))
  let lv ← varint scriptPubKey.length
  pure (vb ++ lv ++ scriptPubKey)

/-- The per-input serialization loop of `packtx`: each input contributes
`packtxin((unhexlify(txid)[::-1], vout), b'', 0xffffffff)` — note the txid is
reversed here and again inside `packtxin`. -/
def packIns : List Utxo → Option Bytes
  | [] => some []
  | t :: r => do
    let ub ← unhexlify t.txid
    let i ← packtxin (ub.reverse, t.vout) [] 0xffffffff
    let rest ← packIns r
    pure (i ++ rest)

/-- The per-output serialization loop of `packtx`. -/
def packOuts : List TxOut → Option Bytes
  | [] => some []
  | (v, s) :: r => do
    let o ← packtxout v s
    let rest ← packOuts r
    pure (o ++ rest)

/-- Model of `packtx(txins, txouts, locktime, version)`: 4-byte LE version, varint input
count, inputs, varint output count, outputs, 4-byte LE locktime. `none` models
an uncaught exception (varint `assert` or `binascii` failure). -/
def packtx (txins : List Utxo) (txouts : List TxOut) (locktime version : Nat) : Option Bytes := do
  let vi ← varint txins.length
  let ins ← packIns txins
  let vo ← varint txouts.length
  let outs ← packOuts txouts
  pure (toBytesLE 4 version ++ vi ++ ins ++ vo ++ outs ++ toBytesLE 4 locktime)

/-- Fuel-driven worker for consecutive slicing (fuel bounds the number of
slices; any fuel at least the list length is enough, since each step consumes
at least one element). -/
def sliceGo (csPred : Nat) : Nat → Bytes → List Bytes
  | _, [] => []
  | 0, l => [l]
  | fuel + 1, x :: l =>
    (x :: l).take (csPred + 1) :: sliceGo csPred fuel ((x :: l).drop (csPred + 1))

/-- Python `[data[i:i+cs] for i in range(0, len(data), cs)]` for a positive
slice width `cs = csPred + 1`. -/
def sliceEvery (csPred : Nat) (l : Bytes) : List Bytes := sliceGo csPred l.length l

/-- Rotate a 64-bit lane left (inputs below `2^64`). -/
def rotl64 (x n : Nat) : Nat := ((x <<< n) ||| (x >>> (64 - n))) % (2 ^ 64)

/-- Keccak round constants. -/
def keccakRC : List Nat :=
  [0x0000000000000001, 0x0000000000008082, 0x800000000000808a, 0x8000000080008000,
   0x000000000000808b, 0x0000000080000001, 0x8000000080008081, 0x8000000000008009,
   0x000000000000008a, 0x0000000000000088, 0x0000000080008009, 0x000000008000000a,
   0x000000008000808b, 0x800000000000008b, 0x8000000000008089, 0x8000000000008003,
   0x8000000000008002, 0x8000000000000080, 0x000000000000800a, 0x800000008000000a,
   0x8000000080008081, 0x8000000000008080, 0x0000000080000001, 0x8000000080008008]

/-- Keccak rotation offsets for lane `x + 5*y`. -/
def rhoOffsets : List Nat :=
  [0, 1, 62, 28, 27] ++ [36, 44, 6, 55, 20] ++ [3, 10, 43, 25, 39] ++
    [41, 45, 15, 21, 8] ++ [18, 2, 61, 56, 14]

/-- The 25-lane Keccak state is packed into one natural number, 64 bits per
lane (lane `i` occupying bits `64*i ..< 64*(i+1)`); this evaluates strictly
and fast under kernel reduction.  `keccakLane` extracts lane `i`. -/
def keccakLane (A i : Nat) : Nat := (A >>> (64 * i)) &&& 0xffffffffffffffff

/-- Pack the 25 lanes `f 0, …, f 24` (each below `2^64`) into one state. -/
def packLanes (f : Nat → Nat) : Nat :=
  (List.range 25).foldl (fun acc i => acc + (f i <<< (64 * i))) 0

/-- The Keccak θ column parity `C x`. -/
def thetaC (A x : Nat) : Nat :=
  keccakLane A x ^^^ keccakLane A (x + 5) ^^^ keccakLane A (x + 10) ^^^
    keccakLane A (x + 15) ^^^ keccakLane A (x + 20)

/-- The Keccak θ correction term `D x`. -/
def thetaD (A x : Nat) : Nat := thetaC A ((x + 4) % 5) ^^^ rotl64 (thetaC A ((x + 1) % 5)) 1

/-- Keccak θ step. -/
def keccakTheta (A : Nat) : Nat := packLanes fun i => keccakLane A i ^^^ thetaD A (i % 5)

/-- Keccak ρ and π steps: lane `(x, y)` is rotated and moved to
`(y, 2x + 3y mod 5)`; expressed here through the inverse index map. -/
def keccakRhoPi (B : Nat) : Nat :=
  packLanes fun j =>
    let y := j % 5
    let xp := j / 5
    let x := (3 * (xp + 2 * y)) % 5
    rotl64 (keccakLane B (x + 5 * y)) (rhoOffsets.getD (x + 5 * y) 0)

/-- Keccak χ step (bitwise `b ^ (~b1 & b2)` along rows). -/
def keccakChi (B : Nat) : Nat :=
  packLanes fun j =>
    let x := j % 5
    let y5 := j - x
    keccakLane B j ^^^
      ((keccakLane B ((x + 1) % 5 + y5) ^^^ 0xffffffffffffffff) &&&
        keccakLane B ((x + 2) % 5 + y5))

/-- Force a natural number to a numeral before continuing (keeps reduction of
the iterated permutation shallow and shared). -/
def natSeq (n : Nat) (k : Nat → Nat) : Nat :=
  match n with
  | 0 => k 0
  | m + 1 => k (m + 1)

/-- The 24 Keccak rounds; the ι step is the XOR of the round constant into
lane 0, i.e. into the low 64 bits of the packed state. -/
def keccakRounds : List Nat → Nat → Nat
  | [], st => st
  | rc :: rest, st =>
    natSeq (keccakChi (keccakRhoPi (keccakTheta st)) ^^^ rc) (keccakRounds rest)

/-- The Keccak-f[1600] permutation (24 rounds). -/
def keccakF (A : Nat) : Nat := keccakRounds keccakRC A

/-- Little-endian interpretation of a byte string; on a 136-byte rate block
this is exactly the packed value of its 17 lanes. -/
def bytesToNatLEw : Bytes → Nat := fun b => b.foldr (fun x acc => x + 256 * acc) 0

/-- SHA3 `pad10*1` suffix with domain separator `0x06` for rate 136. -/
def sha3PadSuffix (len : Nat) : Bytes :=
  let q := 136 - len % 136
  if q = 1 then [0x86] else 0x06 :: (List.replicate (q - 2) 0 ++ [0x80])

/-- Absorb the padded 136-byte blocks into the sponge. -/
def sha3Absorb : List Bytes → Nat → Nat
  | [], st => st
  | blk :: rest, st => natSeq (keccakF (st ^^^ bytesToNatLEw blk)) (sha3Absorb rest)

/-- SHA3-256 digest, i.e. `hashlib.sha3_256(m).digest()` as called by
`get_raw_sha256_hash`: pad, absorb, and squeeze the first 32 bytes (the low
four lanes, little-endian).  Checked against NIST/hashlib vectors for the
empty string, `"abc"`, a 200-byte two-block input and a 768-byte input. -/
def sha3_256 (m : Bytes) : Bytes :=
  let padded := m ++ sha3PadSuffix m.length
  let blocks := sliceEvery 135 padded
  let st := sha3Absorb blocks 0
  toBytesLE 32 (st % 2 ^ 256)

/-- Model of `calculate_chunks(data, max_chunk_size)`: `num_chunks = ⌈len/max⌉`,
`chunk_size = ⌈len/num_chunks⌉`, and consecutive slices of `chunk_size`.
`none` models the `ZeroDivisionError` raised when `data` is empty (then
`num_chunks = 0`). -/
def calculate_chunks (data : Bytes) (maxChunkSize : Nat) : Option (List Bytes) :=
  let numChunks := (data.length + maxChunkSize - 1) / maxChunkSize
  if numChunks = 0 then none
  else
    let chunkSize := (data.length + numChunks - 1) / numChunks
    some (sliceEvery (chunkSize - 1) data)

/-- ASCII bytes of the default `burn_address` argument of `select_txins`,
`"44oUgmZSL997veFEQDq569wv5tsT6KXf9QY7"`. -/
def burnAddress : Bytes :=
  [52, 52, 111, 85, 103, 109, 90, 83, 76, 57, 57, 55, 118, 101, 70, 69, 81, 68,
   113, 53, 54, 57, 119, 118, 53, 116, 115, 84, 54, 75, 88, 102, 57, 81, 89, 55]

/-- The scanning loop of `select_txins`: skip entries that are not spendable,
belong to the burn address, are coinbase, or whose address the wallet does not
own; keep the rest, counting only the kept entries (`reviewed_utxos` is
incremented only after an append) and stopping once `limit` entries have been
kept. -/
def collectValid (ismine : Bytes → Bool) (burn : Bytes) (limit : Nat) :
    List Utxo → Nat → List Utxo
  | [], _ => []
  | tx :: rest, count =>
    if tx.spendable = false ∨ tx.address = burn ∨ tx.generated = true then
      collectValid ismine burn limit rest count
    else if ismine tx.address = false then
      collectValid ismine burn limit rest count
    else if limit ≤ count + 1 then [tx]
    else tx :: collectValid ismine burn limit rest (count + 1)

/-- Stable sort by a natural-number key.  Python `list.sort(key=k)` is stable,
and any two stable sorts agree on every input, so insertion sort is
extensionally the Timsort used by the source. -/
def sortByKey {α : Type} (k : α → Nat) (l : List α) : List α :=
  l.insertionSort (fun a b => k a ≤ k b)

/-- The greedy accumulation loop of `select_txins`: append, add the amount,
stop as soon as the running total reaches the requested value. -/
def greedyLoop (value : ℚ) : List Utxo → ℚ → List Utxo × ℚ
  | [], acc => ([], acc)
  | tx :: rest, acc =>
    let acc2 := qAdd acc tx.amount
    if value ≤ acc2 then ([tx], acc2)
    else
      let p := greedyLoop value rest acc2
      (tx :: p.1, p.2)

/-- Model of `select_txins(value)`: filter the unspent list (with the kept-entry cap),
stable-sort the kept entries by ascending confirmations, take the greedy
prefix, and raise `Exception("Insufficient funds")` when the pool total falls
short.  `validateaddress` is modelled by the pure wallet predicate `ismine`. -/
def select_txins (ismine : Bytes → Bool) (unspent : List Utxo) (value : ℚ)
    (burn : Bytes) (limit : Nat) : Except PyErr (List Utxo × ℚ) :=
  let valid := collectValid ismine burn limit unspent 0
  let sorted := sortByKey (fun u => u.confirmations) valid
  let p := greedyLoop value sorted 0
  if p.2 < value then .error .insufficientFunds else .ok p

/-- Whether a byte is a UTF-8 continuation byte. -/
def utf8Cont (b : Nat) : Bool := decide (0x80 ≤ b ∧ b ≤ 0xbf)

/-- Validity of a byte string under strict UTF-8 decoding, as raised-or-not by
Python `bytes.decode()` (RFC 3629: no overlongs, no surrogates, max U+10FFFF). -/
def utf8Valid : Bytes → Bool
  | [] => true
  | b :: r =>
    if b < 0x80 then utf8Valid r
    else if b < 0xc2 then false
    else if b < 0xe0 then
      match r with
      | c :: r2 => utf8Cont c && utf8Valid r2
      | [] => false
    else if b < 0xf0 then
      match r with
      | c :: d :: r2 =>
        let lo := if b = 0xe0 then 0xa0 else 0x80
        let hi := if b = 0xed then 0x9f else 0xbf
        decide (lo ≤ c ∧ c ≤ hi) && utf8Cont d && utf8Valid r2
      | _ => false
    else if b < 0xf5 then
      match r with
      | c :: d :: e :: r2 =>
        let lo := if b = 0xf0 then 0x90 else 0x80
        let hi := if b = 0xf4 then 0x8f else 0xbf
        decide (lo ≤ c ∧ c ≤ hi) && utf8Cont d && utf8Cont e && utf8Valid r2
      | _ => false
    else false

/-- The relevant fields of a `signrawtransaction` response: the signed hex,
the `complete` flag, and whether the `errors` field is non-empty. -/
structure SignResult where
  hex : Bytes
  complete : Bool
  errs : Bool
deriving DecidableEq, Repr

/-- The node RPC endpoint and external collaborators, as response functions.
`compress`/`decompress` stand for the external zstd codec.  `sendResult n`
is the node's verdict on the `n`-th broadcast and `txid n` the txid it
assigns (a 64-character hex string in reality).  `pubkey n` is the `n`-th
draw of `os.urandom(33)`, `newaddress n` the `n`-th `getnewaddress` reply.
`feePerKb` is the module constant `fee_per_kb = Decimal(0.0001)` kept
symbolic. -/
structure Oracle where
  compress : Bytes → Bytes
  decompress : Bytes → Bytes
  ismine : Bytes → Bool
  unspent : List Utxo
  newaddress : Nat → Bytes
  pubkey : Nat → Bytes
  sign : Bytes → SignResult
  sendResult : Nat → Except Int Unit
  txid : Nat → Bytes
  feePerKb : ℚ

/-- Mutable world: the faithful chain (txid, output scripts of the broadcast
transaction — `getrawtransaction` followed by `decoderawtransaction` returns
exactly these, newest first) plus counters for broadcasts, `os.urandom`
draws and `getnewaddress` calls. -/
structure World where
  chain : List (Bytes × List Bytes)
  nSend : Nat
  nKey : Nat
  nAddr : Nat
deriving DecidableEq, Repr

/-- The initial world: empty chain, zeroed counters. -/
def World.init : World := ⟨[], 0, 0, 0⟩

/-- Model of `getnewaddress` RPC: returns the oracle's next fresh address.  All
store-path operations take and return the `World` explicitly and model raised
exceptions with `Except PyErr`. -/
def getnewaddress (O : Oracle) (w : World) : Except PyErr (Bytes × World) :=
  .ok (O.newaddress w.nAddr, ⟨w.chain, w.nSend, w.nKey, w.nAddr + 1⟩)

/-- Model of `os.urandom(33)` as consumed by the two carrier-script builders. -/
def freshPubkey (O : Oracle) (w : World) : Except PyErr (Bytes × World) :=
  .ok (O.pubkey w.nKey, ⟨w.chain, w.nSend, w.nKey + 1, w.nAddr⟩)

/-- Model of `prepare_txins_and_change`: select inputs for `value` and return the
change `total - value`.  The source's `if txins is None` branch is dead code
(`select_txins` raises instead of returning `None`) and is omitted. -/
def prepare_txins_and_change (O : Oracle) (value : ℚ) : Except PyErr (List Utxo × ℚ) := do
  let (txins, total) ← select_txins O.ismine O.unspent value burnAddress 100
  pure (txins, qSub total value)

/-- Model of `add_output_transactions`: append the change output, paying to a P2PKH
script whose "pubkey hash" is the SHA3-256 of the fresh address string. -/
def add_output_transactions (O : Oracle) (change : ℚ) (txouts : List TxOut)
    (w : World) : Except PyErr ((ℚ × List TxOut) × World) := do
  let (changeAddress, w1) ← getnewaddress O w
  let pubkeyHash := sha3_256 changeAddress
  let scriptPubkey := build_p2pkh_output_script pubkeyHash
  pure ((change, txouts ++ [(change, scriptPubkey)]), w1)

/-- Model of `calculate_transaction_fee(signed_tx)`: half the signed hex length (the
byte size) times `fee_per_kb / 1000`. -/
def calculate_transaction_fee (feePerKb : ℚ) (signed : SignResult) : ℚ :=
  qDivNat (qMul (qDivNat (qOfNat signed.hex.length) 2) feePerKb) 1000

/-- The in-place update `txouts[-1] = (txouts[-1][0] - fee, txouts[-1][1])`
performed between the two serializations of `create_and_send_transaction`
(Python raises `IndexError` on an empty list; every call site has appended the
change output, so the list is never empty). -/
def updateChange (txouts : List TxOut) (fee : ℚ) : List TxOut :=
  match txouts.getLast? with
  | some last => txouts.dropLast ++ [(qSub last.1 fee, last.2)]
  | none => []

/-- Model of `create_transaction`: serialize and hex-encode; an exception inside
`packtx` (varint `assert` / `binascii`) propagates. -/
def create_transaction (txins : List Utxo) (txouts : List TxOut) : Except PyErr Bytes :=
  match packtx txins txouts 0 1 with
  | some tx => .ok (hexlify tx)
  | none => .error .otherErr

/-- Model of `send_transaction` / `sendrawtransaction`: on acceptance the faithful
chain records the broadcast transaction's output scripts under its new txid
(newest first); on rejection the node's error code is raised as a
`JSONRPCException`. -/
def send_transaction (O : Oracle) (outScripts : List Bytes) (w : World) :
    Except PyErr (Bytes × World) :=
  match O.sendResult w.nSend with
  | .ok _ =>
    .ok (O.txid w.nSend, ⟨(O.txid w.nSend, outScripts) :: w.chain, w.nSend + 1, w.nKey, w.nAddr⟩)
  | .error c => .error (.rpc c)

/-- Model of `create_and_send_transaction`: serialize, sign (return `None` on signer
errors or incompleteness), recompute the fee from the signed size, subtract it
from the change output, re-serialize, re-sign (`assert` complete), broadcast;
node error codes −25/−26 yield `None`, all other exceptions propagate (the
`try` only wraps the broadcast, so the handler resumes with the chain
unchanged). -/
def create_and_send_transaction (O : Oracle) (txins : List Utxo) (txouts : List TxOut)
    (w : World) : Except PyErr (Option (Bytes × ℚ) × World) :=
  match create_transaction txins txouts with
  | .error e => .error e
  | .ok hex1 =>
    let s1 := O.sign hex1
    if s1.errs then .ok (none, w)
    else if s1.complete = false then .ok (none, w)
    else
      let fee := calculate_transaction_fee O.feePerKb s1
      let txouts2 := updateChange txouts fee
      match create_transaction txins txouts2 with
      | .error e => .error e
      | .ok hex2 =>
        let s2 := O.sign hex2
        if s2.complete = false then .error .assertFail
        else
          match send_transaction O (txouts2.map Prod.snd) w with
          | .ok (t, w2) => .ok (some (t, fee), w2)
          | .error (.rpc c) =>
            if c = -25 ∨ c = -26 then .ok (none, w) else .error (.rpc c)
          | .error e => .error e

/-- Model of `store_data_chunk`: zero-value carrier output (`OP_1 33 <random pubkey>
OP_1 OP_CHECKMULTISIG ‖ pushdata(chunk)`), rough fee estimate
`len(chunk) * fee_per_kb`, input selection, change output, then
`create_and_send_transaction`; returns the txid or `None`. -/
def store_data_chunk (O : Oracle) (chunk : Bytes) (w : World) :
    Except PyErr (Option Bytes × World) := do
  let (fakePubkey, w1) ← freshPubkey O w
  let txouts : List TxOut := [(0, dataOutputScript fakePubkey chunk)]
  let estimatedFee : ℚ := qMul (qOfNat chunk.length) O.feePerKb
  let (txins, change) ← prepare_txins_and_change O estimatedFee
  let ((_, txouts2), w2) ← add_output_transactions O change txouts w1
  let (result, w3) ← create_and_send_transaction O txins txouts2 w2
  match result with
  | some (transactionId, _) => pure (some transactionId, w3)
  | none => pure (none, w3)

/-- The loop of `store_data_chunks`: prefix each chunk with its 2-byte
big-endian index and store it, collecting the per-chunk results (which are
appended even when a store returned `None`). -/
def store_data_chunks_go (O : Oracle) : Nat → List Bytes → World →
    Except PyErr (List (Option Bytes) × World)
  | _, [], w => pure ([], w)
  | i, chunk :: rest, w => do
    let chunkWithIndex := toBytes2BE i ++ chunk
    let (tid, w1) ← store_data_chunk O chunkWithIndex w
    let (others, w2) ← store_data_chunks_go O (i + 1) rest w1
    pure (tid :: others, w2)

/-- Model of `store_data_chunks`. -/
def store_data_chunks (O : Oracle) (chunks : List Bytes) (w : World) :
    Except PyErr (List (Option Bytes) × World) :=
  store_data_chunks_go O 0 chunks w

/-- Model of `b''.join(txid.encode() for txid in chunk_txids)`: `none` models the
`AttributeError` raised by `None.encode()` when a chunk store failed. -/
def flattenTxids : List (Option Bytes) → Option Bytes
  | [] => some []
  | some t :: r => (flattenTxids r).map (fun d => t ++ d)
  | none :: _ => none

/-- Model of `store_chunk_txids`: same carrier template with the concatenated chunk
txids as body. -/
def store_chunk_txids (O : Oracle) (chunkTxids : List (Option Bytes)) (w : World) :
    Except PyErr (Option Bytes × World) := do
  let (fakePubkey, w1) ← freshPubkey O w
  let txidsData ← match flattenTxids chunkTxids with
    | some d => Except.ok d
    | none => Except.error PyErr.attrNone
  let txouts : List TxOut := [(0, dataOutputScript fakePubkey txidsData)]
  let estimatedFee : ℚ := qMul (qOfNat txidsData.length) O.feePerKb
  let (txins, change) ← prepare_txins_and_change O estimatedFee
  let ((_, txouts2), w2) ← add_output_transactions O change txouts w1
  let (result, w3) ← create_and_send_transaction O txins txouts2 w2
  match result with
  | some (transactionId, _) => pure (some transactionId, w3)
  | none => pure (none, w3)

/-- Model of `store_data_in_blockchain`: compress, hash, frame (2-byte big-endian
length ‖ SHA3(raw) ‖ SHA3(compressed) ‖ compressed), chunk at 3000 bytes,
store the chunks, then store the index transaction and return its txid.
The source's two `try/except` wrappers log and re-raise, an identity on the
exception layer; its `if chunk_txids is None` test is always false because
`store_data_chunks` returns a list. -/
def store_data_in_blockchain (O : Oracle) (inputData : Bytes) (w : World) :
    Except PyErr (Option Bytes × World) := do
  let compressedData := O.compress inputData
  let uncompressedDataHash := sha3_256 inputData
  let compressedDataHash := sha3_256 compressedData
  let header := toBytes2BE inputData.length ++ uncompressedDataHash ++ compressedDataHash
  let dataWithHeader := header ++ compressedData
  let chunks ← match calculate_chunks dataWithHeader 3000 with
    | some cs => Except.ok cs
    | none => Except.error PyErr.otherErr
  let (chunkTxids, w1) ← store_data_chunks O chunks w
  let (finalTxid, w2) ← store_chunk_txids O chunkTxids w1
  match finalTxid with
  | none => pure (none, w2)
  | some t => pure (some t, w2)

/-- Association lookup on the modelled chain (`getrawtransaction` followed by
`decoderawtransaction`, returning the broadcast output scripts). -/
def chainLookup : List (Bytes × List Bytes) → Bytes → Option (List Bytes)
  | [], _ => none
  | (t, s) :: r, q => if t = q then some s else chainLookup r q

/-- The output scan of `retrieve_chunk`: first script whose first byte is
`OP_1` and last byte is `OP_CHECKMULTISIG` yields `script[35:]`;
`script[0]`/`script[-1]` on an empty script raises `IndexError`. -/
def chunkScan : List Bytes → Except PyErr (Option Bytes)
  | [] => .ok none
  | s :: rest =>
    match s.head?, s.getLast? with
    | some h, some l =>
      if h = 0x51 ∧ l = 0xae then .ok (some (s.drop 35)) else chunkScan rest
    | _, _ => .error .indexErr

/-- Model of `retrieve_chunk(txid)`: fetch and decode the transaction (unknown txid
raises a `JSONRPCException`), then scan its outputs. -/
def retrieve_chunk (chain : List (Bytes × List Bytes)) (txid : Bytes) :
    Except PyErr (Option Bytes) :=
  match chainLookup chain txid with
  | none => .error (.rpc (-5))
  | some scripts => chunkScan scripts

/-- The chunk-fetch loop inside the `try` of `retrieve_data_from_blockchain`:
every 64-byte slice must resolve to a carrier chunk; a raised RPC error, or a
`None` chunk (which would raise `TypeError` at the subsequent sort key), makes
the whole `try` fall back. -/
def fetchChunks (chain : List (Bytes × List Bytes)) : List Bytes → Option (List Bytes)
  | [] => some []
  | t :: r =>
    match retrieve_chunk chain t with
    | .ok (some c) => (fetchChunks chain r).map (fun l => c :: l)
    | _ => none

/-- The `try` block of `retrieve_data_from_blockchain`: split the body into
64-byte slices, decode each as UTF-8 (`bytes.decode()` raises on invalid
UTF-8), fetch each as a chunk transaction, stable-sort the chunks by their
2-byte big-endian index and concatenate the remainders; `none` means the
`except` branch is taken and the raw body is used instead. -/
def tryChunks (chain : List (Bytes × List Bytes)) (data : Bytes) : Option Bytes :=
  let slices := sliceEvery 63 data
  if slices.all utf8Valid then
    match fetchChunks chain slices with
    | some chunks =>
      let sorted := sortByKey (fun c => bytesToNatBE (c.take 2)) chunks
      some ((sorted.map (fun c => c.drop 2)).flatten)
    | none => none
  else none

/-- The hash-gated tail of `retrieve_data_from_blockchain`: slice the frame
(`[2:34]` uncompressed hash, `[34:66]` compressed hash, `[66:]` compressed
data), verify the compressed hash, decompress, verify the uncompressed hash,
and return the payload; `none` on either mismatch. -/
def processFrame (decompress : Bytes → Bytes) (combined : Bytes) : Option Bytes :=
  let uncompressedDataHash := (combined.drop 2).take 32
  let compressedDataHash := (combined.drop 34).take 32
  let compressedData := combined.drop 66
  if sha3_256 compressedData ≠ compressedDataHash then none
  else
    let decompressedData := decompress compressedData
    if sha3_256 decompressedData ≠ uncompressedDataHash then none
    else some decompressedData

/-- The output loop of `retrieve_data_from_blockchain`: the first sentinel
match (`script[0] == OP_1 and script[-1] == OP_CHECKMULTISIG`) is processed
and returned from — a hash mismatch returns `None` without trying further
outputs; an empty script raises `IndexError`. -/
def retrieveScan (decompress : Bytes → Bytes) (chain : List (Bytes × List Bytes)) :
    List Bytes → Except PyErr (Option Bytes)
  | [] => .ok none
  | s :: rest =>
    match s.head?, s.getLast? with
    | some h, some l =>
      if h = 0x51 ∧ l = 0xae then
        let data := s.drop 35
        let combined := if 64 < data.length then (tryChunks chain data).getD data else data
        .ok (processFrame decompress combined)
      else retrieveScan decompress chain rest
    | _, _ => .error .indexErr

/-- Model of `retrieve_data_from_blockchain(txid)` over the faithful chain. -/
def retrieve_data_from_blockchain (decompress : Bytes → Bytes)
    (chain : List (Bytes × List Bytes)) (txid : Bytes) : Except PyErr (Option Bytes) :=
  match chainLookup chain txid with
  | none => .error (.rpc (-5))
  | some scripts => retrieveScan decompress chain scripts

/-- Model of `num_chunks` as computed by `calculate_chunks` for `max_chunk_size = 3000`
(line 354), i.e. `⌈L/3000⌉`. -/
def numChunks3000 (L : Nat) : Nat := (L + 3000 - 1) / 3000

/-- Model of `chunk_size` as computed by `calculate_chunks` for `max_chunk_size = 3000`
(line 355), i.e. `⌈L/num_chunks⌉`. -/
def chunkSize3000 (L : Nat) : Nat := (L + numChunks3000 L - 1) / numChunks3000 L

/-- Total amount of a list of UTXOs. -/
def sumAmounts (l : List Utxo) : ℚ := (l.map Utxo.amount).sum

/-- Modelled from the spec: the claim's reading of the selector — "inspects at
most 100 entries" / "abort scanning after inspecting up to REVIEW_LIMIT=100
entries" — under which only the first `limit` entries of the unspent list are
ever considered, the eligible ones among them kept.  The source instead counts
only kept entries against the cap; this definition exists to be compared with
`select_txins`. -/
def select_txins_claimed (ismine : Bytes → Bool) (unspent : List Utxo) (value : ℚ)
    (burn : Bytes) (limit : Nat) : Except PyErr (List Utxo × ℚ) :=
  let inspected := unspent.take limit
  let valid := inspected.filter fun tx =>
    tx.spendable && !tx.generated && decide (tx.address ≠ burn) && ismine tx.address
  let sorted := sortByKey (fun u => u.confirmations) valid
  let p := greedyLoop value sorted 0
  if p.2 < value then .error .insufficientFunds else .ok p

/-- A single large confirmed wallet UTXO (amount 10^6, confirmations 1). -/
def solventUtxo : Utxo := ⟨List.replicate 64 48, 0, 1000000, [97], true, false, 1⟩

/-- A solvent wallet and a fully cooperative node: signing always completes
and echoes the serialized hex, every broadcast is accepted, the `n`-th
broadcast receives the 64-hex-character txid `"0"*63 ++ <hex digit 1+n>`, and
the zstd codec is modelled by the identity (a lossless codec; the claims
exercised on this oracle do not depend on the codec's output bytes). -/
def honestOracle : Oracle :=
  ⟨id, id, fun _ => true, [solventUtxo], fun _ => [97], fun _ => List.replicate 33 7,
   fun h => ⟨h, true, false⟩, fun _ => .ok (), fun n => List.replicate 63 48 ++ [49 + n],
   mkRat 1 10000⟩

/-- Storing the payload `b"hi"` (`[104, 105]`) on the honest oracle from the
initial world. -/
def c1run : Except PyErr (Option Bytes × World) :=
  store_data_in_blockchain honestOracle [104, 105] World.init

/-- The index txid returned by the store operation of `c1run` (if any). -/
def c1finalTxid : Option Bytes :=
  match c1run with
  | .ok (some t, _) => some t
  | _ => none

/-- The result of retrieving the txid returned by `c1run` from the chain it
produced. -/
def c1retrieved : Option (Except PyErr (Option Bytes)) :=
  match c1run with
  | .ok (some t, w) => some (retrieve_data_from_blockchain honestOracle.decompress w.chain t)
  | _ => none

/-- Storing the single chunk `[5]` on the honest oracle (one chunk
transaction). -/
def c3run : Except PyErr (Option Bytes × World) :=
  store_data_chunk honestOracle [5] World.init

/-- The data-carrying output script of the chunk transaction broadcast by
`c3run`. -/
def c3script : Bytes :=
  match c3run with
  | .ok (_, w) => (w.chain.headD ([], [])).2.headD []
  | .error _ => []

/-- The honest oracle with the first broadcast (the chunk transaction)
rejected by the node with code −25 (missing inputs). -/
def c9chunkFailOracle : Oracle :=
  { honestOracle with sendResult := fun n => if n = 0 then .error (-25) else .ok () }

/-- The honest oracle with the second broadcast (the index transaction)
rejected with code −26 (insufficient funds). -/
def c9indexFailOracle : Oracle :=
  { honestOracle with sendResult := fun n => if n = 1 then .error (-26) else .ok () }

/-- The honest oracle with the first broadcast rejected with code −7 (neither
−25 nor −26). -/
def c9otherFailOracle : Oracle :=
  { honestOracle with sendResult := fun n => if n = 0 then .error (-7) else .ok () }

/-- Storing `b"hi"` when the chunk broadcast fails with −25. -/
def c9chunkFailRun : Except PyErr (Option Bytes × World) :=
  store_data_in_blockchain c9chunkFailOracle [104, 105] World.init

/-- Storing `b"hi"` when the index broadcast fails with −26. -/
def c9indexFailRun : Except PyErr (Option Bytes × World) :=
  store_data_in_blockchain c9indexFailOracle [104, 105] World.init

/-- Storing `b"hi"` when the chunk broadcast fails with −7. -/
def c9otherFailRun : Except PyErr (Option Bytes × World) :=
  store_data_in_blockchain c9otherFailOracle [104, 105] World.init

/-- A decompressor stand-in mapping every compressed region to `[42]`. -/
def c2decompress : Bytes → Bytes := fun _ => [42]

/-- The single output script of the `c2chain` transaction, as one literal
byte string: the sentinel byte `0x51`, 34 filler bytes (the retriever skips
`script[:35]`), then a frame whose two embedded hashes are consistent —
2-byte length, the SHA3-256 digest of the decompressed payload `[42]`
(bytes 37-68), the SHA3-256 digest of the 1-byte compressed region `[0xAE]`
(bytes 69-100), and that region itself as the final byte (so the script also
ends in `0xAE`).  Retrieval re-verifies both digests with `sha3_256`. -/
def c2script : Bytes :=
  [81, 0, 0, 0, 0, 0, 0, 0, 0, 0, 0, 0, 0, 0, 0, 0, 0, 0, 0, 0,
   0, 0, 0, 0, 0, 0, 0, 0, 0, 0, 0, 0, 0, 0, 0, 0, 1, 130, 40, 59,
   75, 3, 5, 137, 167, 170, 12, 162, 139, 142, 147, 58, 192, 189, 137, 115, 138, 13, 245, 9,
   128, 108, 134, 67, 102, 222, 236, 49, 215, 170, 77, 110, 225, 19, 47, 40, 49, 114, 20, 161,
   59, 56, 20, 46, 118, 208, 191, 177, 65, 101, 60, 208, 204, 135, 146, 187, 96, 37, 91, 134,
   233, 174]

/-- A single-transaction chain whose only output script is `c2script`. -/
def c2chain : List (Bytes × List Bytes) := [([9], [c2script])]

/-- A 64-hex-character txid `"0"*62 ++ "01"` whose byte decoding is not a
palindrome. -/
def c4txid : Bytes := List.replicate 62 48 ++ [48, 49]

/-- A UTXO with txid `c4txid` and vout 7. -/
def c4utxo : Utxo := ⟨c4txid, 7, 0, [], true, false, 0⟩

/-- The bytes of `unhexlify(c4txid)`: 31 zero bytes then `0x01`. -/
def c4prevBytes : Bytes :=
  [0, 0, 0, 0, 0, 0, 0, 0, 0, 0, 0, 0, 0, 0, 0, 0,
   0, 0, 0, 0, 0, 0, 0, 0, 0, 0, 0, 0, 0, 0, 0, 1]

/-- The bytes emitted by `packtx` for the single-input, zero-output
transaction over `c4utxo`: version `01000000`, varint input count 1, the
32 txid bytes (offsets 5-36), vout `07000000`, `varint(0)` for the empty
scriptSig, sequence `ffffffff`, varint output count 0, locktime
`00000000`. -/
def c4serialized : Bytes :=
  [1, 0, 0, 0, 1, 0, 0, 0, 0, 0, 0, 0, 0, 0, 0, 0, 0, 0, 0, 0, 0, 0, 0, 0, 0, 0, 0, 0,
   0, 0, 0, 0, 0, 0, 0, 0, 1, 7, 0, 0, 0, 0, 255, 255, 255, 255, 0, 0, 0, 0, 0]

/-- An eligible wallet UTXO of amount 1 with 0 confirmations. -/
def eligibleUtxo : Utxo := ⟨List.replicate 64 48, 0, 1, [98], true, false, 0⟩

/-- The same UTXO marked not spendable (hence skipped without being counted). -/
def ineligibleUtxo : Utxo := ⟨List.replicate 64 48, 0, 1, [98], false, false, 0⟩

/-- A 101-entry unspent list: one ineligible entry followed by 100 eligible
ones. -/
def c7unspent : List Utxo := ineligibleUtxo :: List.replicate 100 eligibleUtxo

/-- An eligible UTXO of amount 5. -/
def c10utxo : Utxo := ⟨List.replicate 64 48, 0, 5, [98], true, false, 0⟩

/-- The honest oracle with every broadcast rejected with code −26. -/
def c9rejectOracle : Oracle :=
  { honestOracle with sendResult := fun _ => .error (-26) }

/-- A single zero-value output carrying the 1-byte script `[1]`, used to
exercise `create_and_send_transaction` directly. -/
def c9wOuts : List TxOut := [(0, [1])]

/-- The first serialization of the witness transaction. -/
def c9wTx1 : Bytes := (packtx [c4utxo] c9wOuts 0 1).getD []

/-- The fee-adjusted outputs of the witness transaction. -/
def c9wOuts2 : List TxOut :=
  updateChange c9wOuts
    (calculate_transaction_fee c9rejectOracle.feePerKb (c9rejectOracle.sign (hexlify c9wTx1)))

/-- The second serialization of the witness transaction. -/
def c9wTx2 : Bytes := (packtx [c4utxo] c9wOuts2 0 1).getD []

set_option maxRecDepth 10000

/-- The explicit rational addition agrees with `ℚ` addition. -/
theorem qAdd_eq (a b : ℚ) : qAdd a b = a + b := by
  rw [qAdd, Rat.mkRat_eq_divInt]
  conv_rhs => rw [← Rat.num_divInt_den a, ← Rat.num_divInt_den b]
  rw [Rat.divInt_add_divInt _ _ (Int.natCast_ne_zero.mpr a.den_nz)
    (Int.natCast_ne_zero.mpr b.den_nz), Nat.cast_mul]

/-- The explicit rational subtraction agrees with `ℚ` subtraction. -/
theorem qSub_eq (a b : ℚ) : qSub a b = a - b := by
  rw [qSub, Rat.mkRat_eq_divInt]
  conv_rhs => rw [← Rat.num_divInt_den a, ← Rat.num_divInt_den b]
  rw [Rat.divInt_sub_divInt _ _ (Int.natCast_ne_zero.mpr a.den_nz)
    (Int.natCast_ne_zero.mpr b.den_nz), Nat.cast_mul]

/-- The explicit rational multiplication agrees with `ℚ` multiplication. -/
theorem qMul_eq (a b : ℚ) : qMul a b = a * b := by
  rw [qMul, Rat.mkRat_eq_divInt]
  conv_rhs => rw [← Rat.num_divInt_den a, ← Rat.num_divInt_den b]
  rw [Rat.divInt_mul_divInt _ _ (Int.natCast_ne_zero.mpr a.den_nz)
    (Int.natCast_ne_zero.mpr b.den_nz), Nat.cast_mul]

/-- The explicit division by a natural agrees with `ℚ` division. -/
theorem qDivNat_eq (a : ℚ) (n : Nat) : qDivNat a n = a / (n : ℚ) := by
  rw [qDivNat, Rat.mkRat_eq_divInt, Rat.divInt_eq_div]
  push_cast
  conv_rhs => rw [← Rat.num_div_den a]
  rw [div_div]

/-- The explicit embedding of a natural agrees with the cast to `ℚ`. -/
theorem qOfNat_eq (n : Nat) : qOfNat n = (n : ℚ) := by
  rw [qOfNat, Rat.mkRat_one]
  push_cast
  rfl

set_option maxHeartbeats 4000000 in
/-- C1: the frame round-trip claim fails on the code.  Storing the payload
`b"hi"` over a solvent wallet and a fully faithful node succeeds and returns
the index txid, yet `retrieve_data_from_blockchain` on that txid returns
`None` rather than the payload: each stored output script is
`carrier ‖ pushdata(body)`, which ends with the last byte of the body (a hex
character of a chunk txid), so the retrieval sentinel
`script[0] == OP_1 and script[-1] == OP_CHECKMULTISIG` matches no output. -/
theorem c1_store_then_retrieve_returns_none :
    c1finalTxid = some (List.replicate 63 48 ++ [50]) ∧
      c1retrieved = some (Except.ok none) := by
  exact ⟨by decide, by decide⟩

set_option maxHeartbeats 1000000 in
/-- C4: the serialized previous-txid bytes are NOT reversed.  `packtx`
reverses `unhexlify(txid)` and `packtxin` reverses its first component again,
so the emitted input carries `unhexlify(txid)` in display order: on the
concrete single-input transaction below, the txid region (bytes 5-36 of
`c4serialized`) equals `c4prevBytes = unhexlify(c4txid)` itself and not its
reversal, contradicting the claimed (and standard) little-endian layout.
All other fields match the claim: 4-byte LE version 1, varint counts, 4-byte
LE vout, `varint(0)` for the empty scriptSig, sequence `0xFFFFFFFF`, and
4-byte LE locktime 0 (see `c4serialized`). -/
theorem c4_packtx_txid_unreversed :
    packtx [c4utxo] [] 0 1 = some c4serialized ∧
    (c4serialized.drop 5).take 32 = c4prevBytes ∧
    unhexlify c4txid = some c4prevBytes ∧
    c4prevBytes ≠ c4prevBytes.reverse := by
  exact ⟨by decide, by decide, by decide, by decide⟩

/-- C5 counterexample: `varint` is not defined on all of `[0, 0xFFFF]` — the
guard `n < 0xffff` is strict, so `varint(0xFFFF)` hits `assert False`. -/
theorem c5_varint_undefined_at_ffff : varint 0xffff = none := by decide

/-- C5 amended: for every `n` in `[0, 0xFFFE]`, `varint n` is defined, equals
a single byte when `n < 0xFD` and otherwise `0xFD` followed by `n` as a
2-byte little-endian integer, and decoding the encoding recovers `n`. -/
theorem c5_varint_law (n : Nat) (h : n ≤ 0xfffe) :
    (n < 0xfd → varint n = some [n]) ∧
    (0xfd ≤ n → varint n = some [0xfd, n % 256, n / 256 % 256]) ∧
    ∃ bs, varint n = some bs ∧ decodeVarint bs = some n := by
  by_cases hn : n < 0xfd
  · refine ⟨fun _ => ?_, fun h2 => absurd h2 (by omega), ⟨[n], ?_, ?_⟩⟩
    · simp [varint, hn]
    · simp [varint, hn]
    · simp [decodeVarint, hn]
  · have hlt : n < 0xffff := by omega
    have henc : varint n = some [0xfd, n % 256, n / 256 % 256] := by
      simp [varint, hn, hlt, toBytesLE]
    refine ⟨fun h1 => absurd h1 hn, fun _ => henc, ⟨[0xfd, n % 256, n / 256 % 256], henc, ?_⟩⟩
    have hdiv : n % 256 + 256 * (n / 256 % 256) = n := by omega
    simp [decodeVarint, hdiv]

/-- Witness for `c5_varint_law` at `n = 700`. -/
theorem c5_varint_law_witness :
    (700 ≤ 0xfffe) ∧
      ((700 < 0xfd → varint 700 = some [700]) ∧
        (0xfd ≤ 700 → varint 700 = some [0xfd, 700 % 256, 700 / 256 % 256]) ∧
        ∃ bs, varint 700 = some bs ∧ decodeVarint bs = some 700) :=
  ⟨by decide, c5_varint_law 700 (by decide)⟩

set_option maxHeartbeats 2000000 in
/-- C3 counterexample: the data-carrying output script broadcast by a store
operation (here the chunk transaction of `c3run`, with body `[5]`) starts
with `0x51 0x21` but does NOT end with `0x51 0xAE`: it ends with
`pushdata([5]) = [1, 5]`, because the source appends `pushdata(chunk)` after
the `OP_1 OP_CHECKMULTISIG` opcodes. -/
theorem c3_script_sentinel_counterexample :
    c3script = dataOutputScript (List.replicate 33 7) [5] ∧
    c3script.take 2 = [0x51, 0x21] ∧
    c3script.reverse.take 2 = [5, 1] ∧
    ¬(c3script.reverse.take 2 = [0xae, 0x51]) := by
  exact ⟨by decide, by decide, by decide, by decide⟩

/-- C3 amended: every data-carrying output script produced by a store
operation starts with `0x51 0x21` and its 37-byte carrier prefix ends with
`0x51 0xAE` (bytes 35-36); the script continues with `pushdata(body)` rather
than ending at the sentinel. -/
theorem c3_script_carrier_layout (fakePubkey body : Bytes)
    (h : fakePubkey.length = 33) :
    dataOutputScript fakePubkey body =
      [0x51, 0x21] ++ fakePubkey ++ ([0x51, 0xae] ++ pushdata body) ∧
    (dataOutputScript fakePubkey body).take 2 = [0x51, 0x21] ∧
    ((dataOutputScript fakePubkey body).drop 35).take 2 = [0x51, 0xae] := by
  have hA : ([0x51, fakePubkey.length] ++ fakePubkey).length = 35 := by simp [h]
  have hsplit : dataOutputScript fakePubkey body =
      ([0x51, fakePubkey.length] ++ fakePubkey) ++ ([0x51, 0xae] ++ pushdata body) := by
    simp [dataOutputScript]
  refine ⟨by simp [dataOutputScript, h], by simp [dataOutputScript, h, List.take], ?_⟩
  rw [hsplit, ← hA, List.drop_left]
  rfl

/-- Witness for `c3_script_carrier_layout` with a 33-byte pubkey and
body `[1]`. -/
theorem c3_script_carrier_layout_witness :
    (List.replicate 33 7 : Bytes).length = 33 ∧
      (dataOutputScript (List.replicate 33 7) [1] =
        [0x51, 0x21] ++ List.replicate 33 7 ++ ([0x51, 0xae] ++ pushdata [1]) ∧
      (dataOutputScript (List.replicate 33 7) [1]).take 2 = [0x51, 0x21] ∧
      ((dataOutputScript (List.replicate 33 7) [1]).drop 35).take 2 = [0x51, 0xae]) :=
  ⟨by decide, c3_script_carrier_layout (List.replicate 33 7) [1] (by decide)⟩

/-- C8: the fee recomputation between the two serializations of
`create_and_send_transaction` only rewrites the final (change) output,
decreasing its value by exactly `(|signed_hex| / 2) * FEE_PER_KB / 1000`
(the fee computed by `calculate_transaction_fee` from the first signing):
the input list variable is untouched between the two `packtx` calls, and the
update keeps every non-final output and the final output's script
identical. -/
theorem c8_fee_frame_effect (feePerKb : ℚ) (s : SignResult) (front : List TxOut)
    (v : ℚ) (scr : Bytes) :
    updateChange (front ++ [(v, scr)]) (calculate_transaction_fee feePerKb s) =
      front ++ [(v - (s.hex.length : ℚ) / 2 * feePerKb / 1000, scr)] := by
  have hfee : calculate_transaction_fee feePerKb s =
      (s.hex.length : ℚ) / 2 * feePerKb / 1000 := by
    rw [calculate_transaction_fee, qDivNat_eq, qMul_eq, qDivNat_eq, qOfNat_eq]
    norm_num
  simp [updateChange, List.getLast?_concat, List.dropLast_concat, qSub_eq, hfee]

/-- Model of `processFrame` succeeds exactly when both embedded hashes match, and then
returns the decompressed region. -/
theorem processFrame_some_iff (dec : Bytes → Bytes) (cd d : Bytes) :
    processFrame dec cd = some d ↔
      sha3_256 (cd.drop 66) = (cd.drop 34).take 32 ∧
      sha3_256 (dec (cd.drop 66)) = (cd.drop 2).take 32 ∧
      d = dec (cd.drop 66) := by
  by_cases h1 : sha3_256 (cd.drop 66) = (cd.drop 34).take 32
  · by_cases h2 : sha3_256 (dec (cd.drop 66)) = (cd.drop 2).take 32
    · simp [processFrame, h1, h2, eq_comm]
    · simp [processFrame, h1, h2]
  · simp [processFrame, h1]

/-- Whenever the retrieval output scan returns a payload, that payload came
from `processFrame` on some combined frame. -/
theorem retrieveScan_some_frame (dec : Bytes → Bytes) (chain : List (Bytes × List Bytes))
    (scripts : List Bytes) (d : Bytes)
    (h : retrieveScan dec chain scripts = .ok (some d)) :
    ∃ cd, processFrame dec cd = some d := by
  induction scripts with
  | nil => simp [retrieveScan] at h
  | cons s rest ih =>
    rw [retrieveScan] at h
    split at h
    · split at h
      · exact ⟨_, Except.ok.inj h⟩
      · exact ih h
    · exact absurd h (by simp)

/-- C2: hash gating of retrieval.  If `retrieve_data_from_blockchain` returns
a payload, some combined frame passed both checks — the SHA3-256 of its
compressed region `[66:]` equals the embedded compressed hash `[34:66]` and
the SHA3-256 of the returned (decompressed) payload equals the embedded
uncompressed hash `[2:34]` — and the payload is the decompression of that
region; and `processFrame` (the hash-gated tail applied to the frame of the
first sentinel-matching output) returns a payload exactly when both
comparisons succeed, returning `None` when either fails. -/
theorem c2_hash_gating (dec : Bytes → Bytes) (chain : List (Bytes × List Bytes))
    (t d combined : Bytes) :
    (retrieve_data_from_blockchain dec chain t = .ok (some d) →
      ∃ cd : Bytes, d = dec (cd.drop 66) ∧
        sha3_256 (cd.drop 66) = (cd.drop 34).take 32 ∧
        sha3_256 d = (cd.drop 2).take 32) ∧
    (processFrame dec combined = some d ↔
      sha3_256 (combined.drop 66) = (combined.drop 34).take 32 ∧
      sha3_256 (dec (combined.drop 66)) = (combined.drop 2).take 32 ∧
      d = dec (combined.drop 66)) := by
  refine ⟨fun h => ?_, processFrame_some_iff dec combined d⟩
  rw [retrieve_data_from_blockchain] at h
  cases hlk : chainLookup chain t with
  | none => rw [hlk] at h; exact absurd h (by simp)
  | some scripts =>
    rw [hlk] at h
    obtain ⟨cd, hcd⟩ := retrieveScan_some_frame dec chain scripts d h
    obtain ⟨h1, h2, h3⟩ := (processFrame_some_iff dec cd d).mp hcd
    exact ⟨cd, h3, h1, by rw [h3]; exact h2⟩

set_option maxHeartbeats 2000000 in
/-- Witness for `c2_hash_gating`: a concrete chain whose single carrier
output holds a frame with consistent hashes; retrieval succeeds and the
extracted frame satisfies both hash equations. -/
theorem c2_hash_gating_witness :
    retrieve_data_from_blockchain c2decompress c2chain [9] = .ok (some [42]) ∧
      ∃ cd : Bytes, ([42] : Bytes) = c2decompress (cd.drop 66) ∧
        sha3_256 (cd.drop 66) = (cd.drop 34).take 32 ∧
        sha3_256 [42] = (cd.drop 2).take 32 := by
  have h : retrieve_data_from_blockchain c2decompress c2chain [9] = .ok (some [42]) := by
    decide
  exact ⟨h, (c2_hash_gating c2decompress c2chain [9] [42] []).1 h⟩

/-- Concatenating the consecutive slices gives back the list. -/
theorem sliceGo_flatten (csp : Nat) :
    ∀ (fuel : Nat) (l : Bytes), l.length ≤ fuel → (sliceGo csp fuel l).flatten = l := by
  intro fuel
  induction fuel with
  | zero =>
    intro l h
    cases l with
    | nil => rfl
    | cons x t => simp at h
  | succ f ih =>
    intro l h
    cases l with
    | nil => rfl
    | cons x t =>
      have h' : t.length + 1 ≤ f + 1 := by simpa using h
      have hd : ((x :: t).drop (csp + 1)).length ≤ f := by
        rw [List.length_drop, List.length_cons]; omega
      rw [sliceGo, List.flatten_cons, ih _ hd, List.take_append_drop]

/-- The number of consecutive slices is the ceiling `⌈len/(csp+1)⌉`. -/
theorem sliceGo_length (csp : Nat) :
    ∀ (fuel : Nat) (l : Bytes), l.length ≤ fuel →
      (sliceGo csp fuel l).length = (l.length + csp) / (csp + 1) := by
  intro fuel
  induction fuel with
  | zero =>
    intro l h
    cases l with
    | nil => simpa [sliceGo] using (Nat.div_eq_of_lt (show csp < csp + 1 by omega)).symm
    | cons x t => simp at h
  | succ f ih =>
    intro l h
    cases l with
    | nil => simpa [sliceGo] using (Nat.div_eq_of_lt (show csp < csp + 1 by omega)).symm
    | cons x t =>
      have h' : t.length + 1 ≤ f + 1 := by simpa using h
      have hd : ((x :: t).drop (csp + 1)).length ≤ f := by
        rw [List.length_drop, List.length_cons]; omega
      rw [sliceGo, List.length_cons, ih _ hd, List.length_drop, List.length_cons]
      by_cases hL : t.length + 1 ≤ csp + 1
      · have h1 : t.length + 1 - (csp + 1) = 0 := by omega
        rw [h1, Nat.div_eq_of_lt (show 0 + csp < csp + 1 by omega)]
        have : (t.length + 1 + csp) / (csp + 1) = 1 :=
          Nat.div_eq_of_lt_le (by omega) (by omega)
        omega
      · have heq : t.length + 1 + csp = (t.length + 1 - (csp + 1) + csp) + (csp + 1) := by
          omega
        rw [heq, Nat.add_div_right _ (show 0 < csp + 1 by omega)]

/-- Every consecutive slice has length at most `csp + 1`. -/
theorem sliceGo_mem_length_le (csp : Nat) :
    ∀ (fuel : Nat) (l : Bytes), l.length ≤ fuel →
      ∀ c ∈ sliceGo csp fuel l, c.length ≤ csp + 1 := by
  intro fuel
  induction fuel with
  | zero =>
    intro l h c hc
    cases l with
    | nil => simp [sliceGo] at hc
    | cons x t => simp at h
  | succ f ih =>
    intro l h c hc
    cases l with
    | nil => simp [sliceGo] at hc
    | cons x t =>
      have hd : ((x :: t).drop (csp + 1)).length ≤ f := by
        rw [List.length_drop, List.length_cons]
        have h' : t.length + 1 ≤ f + 1 := by simpa using h
        omega
      rw [sliceGo] at hc
      rcases List.mem_cons.mp hc with hh | hh
      · subst hh; simp [List.length_take]
      · exact ih _ hd c hh

/-- A nonempty list yields a nonempty slice list. -/
theorem sliceGo_ne_nil (csp fuel : Nat) (l : Bytes) (h : l ≠ []) :
    sliceGo csp fuel l ≠ [] := by
  cases fuel with
  | zero => cases l with
    | nil => exact absurd rfl h
    | cons x t => simp [sliceGo]
  | succ f => cases l with
    | nil => exact absurd rfl h
    | cons x t => simp [sliceGo]

/-- Every slice except the last has length exactly `csp + 1`. -/
theorem sliceGo_dropLast_length (csp : Nat) :
    ∀ (fuel : Nat) (l : Bytes), l.length ≤ fuel →
      ∀ c ∈ (sliceGo csp fuel l).dropLast, c.length = csp + 1 := by
  intro fuel
  induction fuel with
  | zero =>
    intro l h c hc
    cases l with
    | nil => simp [sliceGo] at hc
    | cons x t => simp at h
  | succ f ih =>
    intro l h c hc
    cases l with
    | nil => simp [sliceGo] at hc
    | cons x t =>
      have h' : t.length + 1 ≤ f + 1 := by simpa using h
      have hd : ((x :: t).drop (csp + 1)).length ≤ f := by
        rw [List.length_drop, List.length_cons]; omega
      rw [sliceGo] at hc
      cases hdrop : (x :: t).drop (csp + 1) with
      | nil =>
        rw [hdrop] at hc
        cases fuel2 : f with
        | zero => simp [fuel2, sliceGo] at hc
        | succ f2 => simp [fuel2, sliceGo] at hc
      | cons d ds =>
        have hne : sliceGo csp f ((x :: t).drop (csp + 1)) ≠ [] := by
          rw [hdrop]; exact sliceGo_ne_nil csp f (d :: ds) (by simp)
        rw [List.dropLast_cons_of_ne_nil hne] at hc
        rcases List.mem_cons.mp hc with hh | hh
        · subst hh
          have hlen : csp + 1 < (x :: t).length := by
            have := congrArg List.length hdrop
            rw [List.length_drop] at this
            simp at this
            simp
            omega
          rw [List.length_take]
          omega
        · exact ih _ hd c hh

/-- C6: for every non-empty frame `F`, `calculate_chunks F 3000` produces
exactly `num_chunks = ⌈|F|/3000⌉` consecutive slices, each of length
`chunk_size = ⌈|F|/num_chunks⌉` except a possibly shorter last slice, whose
concatenation equals `F`; since `chunk_size ≤ 3000`, every chunk has length
at most 3000. -/
theorem c6_chunking (F : Bytes) (h : F ≠ []) :
    ∃ cl : List Bytes, calculate_chunks F 3000 = some cl ∧
      cl.length = numChunks3000 F.length ∧
      cl.flatten = F ∧
      (∀ c ∈ cl, c.length ≤ chunkSize3000 F.length) ∧
      (∀ c ∈ cl.dropLast, c.length = chunkSize3000 F.length) ∧
      chunkSize3000 F.length ≤ 3000 := by
  have hL : 1 ≤ F.length := List.length_pos.mpr h
  have hn1 : 1 ≤ numChunks3000 F.length := by
    rw [numChunks3000]
    rw [Nat.le_div_iff_mul_le (show 0 < 3000 by omega)]
    omega
  have hA : F.length ≤ 3000 * numChunks3000 F.length := by
    have hiff := Nat.div_le_iff_le_mul_add_pred (show 0 < 3000 by omega)
      (a := F.length + 3000 - 1) (c := numChunks3000 F.length)
    have := hiff.mp (le_of_eq rfl)
    omega
  have hB : numChunks3000 F.length * 3000 ≤ F.length + 3000 - 1 := by
    have hiff := Nat.le_div_iff_mul_le (k := 3000) (x := numChunks3000 F.length)
      (y := F.length + 3000 - 1) (show 0 < 3000 by omega)
    exact hiff.mp (le_of_eq rfl)
  have hn0 : 0 < numChunks3000 F.length := hn1
  have hcs1 : 1 ≤ chunkSize3000 F.length := by
    rw [chunkSize3000]
    rw [Nat.le_div_iff_mul_le hn0]
    omega
  have hC : F.length ≤ numChunks3000 F.length * chunkSize3000 F.length := by
    have hiff := Nat.div_le_iff_le_mul_add_pred hn0
      (a := F.length + numChunks3000 F.length - 1) (c := chunkSize3000 F.length)
    have := hiff.mp (le_of_eq rfl)
    omega
  have hcs3000 : chunkSize3000 F.length ≤ 3000 := by
    rw [chunkSize3000]
    have hiff := Nat.div_le_iff_le_mul_add_pred hn0
      (a := F.length + numChunks3000 F.length - 1) (c := 3000)
    rw [hiff]
    have h1 : numChunks3000 F.length * 3000 = 3000 * numChunks3000 F.length :=
      Nat.mul_comm _ _
    omega
  have hD : numChunks3000 F.length * chunkSize3000 F.length ≤
      F.length + chunkSize3000 F.length - 1 := by
    have hmul1 : chunkSize3000 F.length * (numChunks3000 F.length - 1) ≤
        3000 * (numChunks3000 F.length - 1) :=
      Nat.mul_le_mul_right _ hcs3000
    have hmulc : chunkSize3000 F.length * numChunks3000 F.length =
        chunkSize3000 F.length * (numChunks3000 F.length - 1) + chunkSize3000 F.length := by
      have hstep : numChunks3000 F.length = (numChunks3000 F.length - 1) + 1 := by omega
      conv_lhs => rw [hstep]
      rw [Nat.mul_succ]
    have hcomm : numChunks3000 F.length * chunkSize3000 F.length =
        chunkSize3000 F.length * numChunks3000 F.length := Nat.mul_comm _ _
    omega
  have hlen_eq : (F.length + chunkSize3000 F.length - 1) / chunkSize3000 F.length =
      numChunks3000 F.length := by
    have hcs0 : 0 < chunkSize3000 F.length := hcs1
    have hle : (F.length + chunkSize3000 F.length - 1) / chunkSize3000 F.length ≤
        numChunks3000 F.length := by
      rw [Nat.div_le_iff_le_mul_add_pred hcs0]
      have hcomm : chunkSize3000 F.length * numChunks3000 F.length =
          numChunks3000 F.length * chunkSize3000 F.length := Nat.mul_comm _ _
      omega
    have hge : numChunks3000 F.length ≤
        (F.length + chunkSize3000 F.length - 1) / chunkSize3000 F.length := by
      rw [Nat.le_div_iff_mul_le hcs0]
      have hcomm : numChunks3000 F.length * chunkSize3000 F.length =
          chunkSize3000 F.length * numChunks3000 F.length := Nat.mul_comm _ _
      omega
    omega
  have hnz : ¬((F.length + 3000 - 1) / 3000 = 0) := by
    have : (F.length + 3000 - 1) / 3000 = numChunks3000 F.length := rfl
    omega
  have hcc : calculate_chunks F 3000 = some (sliceEvery (chunkSize3000 F.length - 1) F) := by
    unfold calculate_chunks
    rw [if_neg hnz]
    rfl
  have hcsp : chunkSize3000 F.length - 1 + 1 = chunkSize3000 F.length := by omega
  refine ⟨sliceEvery (chunkSize3000 F.length - 1) F, hcc, ?_, ?_, ?_, ?_, hcs3000⟩
  · rw [sliceEvery, sliceGo_length _ _ _ (le_refl _), hcsp]
    have harg : F.length + (chunkSize3000 F.length - 1) =
        F.length + chunkSize3000 F.length - 1 := by omega
    rw [harg, hlen_eq]
  · rw [sliceEvery]; exact sliceGo_flatten _ _ _ (le_refl _)
  · intro c hc
    have := sliceGo_mem_length_le _ _ _ (le_refl F.length) c hc
    omega
  · intro c hc
    have := sliceGo_dropLast_length _ _ _ (le_refl F.length) c hc
    omega

/-- Witness for `c6_chunking` on a 7000-byte frame (three chunks). -/
theorem c6_chunking_witness :
    (List.replicate 7000 0 : Bytes) ≠ [] ∧
      ∃ cl : List Bytes, calculate_chunks (List.replicate 7000 0) 3000 = some cl ∧
        cl.length = numChunks3000 (List.replicate 7000 0 : Bytes).length ∧
        cl.flatten = List.replicate 7000 0 ∧
        (∀ c ∈ cl, c.length ≤ chunkSize3000 (List.replicate 7000 0 : Bytes).length) ∧
        (∀ c ∈ cl.dropLast, c.length = chunkSize3000 (List.replicate 7000 0 : Bytes).length) ∧
        chunkSize3000 (List.replicate 7000 0 : Bytes).length ≤ 3000 := by
  have hne : (List.replicate 7000 0 : Bytes) ≠ [] := by
    intro hh
    have := congrArg List.length hh
    rw [List.length_replicate] at this
    simp at this
  exact ⟨hne, c6_chunking (List.replicate 7000 0) hne⟩

/-- The greedy loop returns a prefix of its input whose amounts sum, added to
the accumulator, is the returned total. -/
theorem greedyLoop_prefix_sum (value : ℚ) :
    ∀ (l : List Utxo) (acc : ℚ),
      (greedyLoop value l acc).1 <+: l ∧
        (greedyLoop value l acc).2 = acc + sumAmounts (greedyLoop value l acc).1 := by
  intro l
  induction l with
  | nil => intro acc; exact ⟨⟨[], rfl⟩, by simp [greedyLoop, sumAmounts]⟩
  | cons tx rest ih =>
    intro acc
    rw [greedyLoop]
    by_cases hv : value ≤ qAdd acc tx.amount
    · rw [if_pos hv]
      refine ⟨⟨rest, rfl⟩, ?_⟩
      simp [sumAmounts, qAdd_eq]
    · rw [if_neg hv]
      obtain ⟨hpre, hsum⟩ := ih (qAdd acc tx.amount)
      obtain ⟨t, ht⟩ := hpre
      refine ⟨⟨t, by rw [List.cons_append, ht]⟩, ?_⟩
      rw [hsum]
      simp only [sumAmounts, List.map_cons, List.sum_cons]
      rw [qAdd_eq]
      ring

/-- If the greedy loop stops short of the target, it consumed the pool. -/
theorem greedyLoop_short (value : ℚ) :
    ∀ (l : List Utxo) (acc : ℚ), (greedyLoop value l acc).2 < value →
      (greedyLoop value l acc).1 = l := by
  intro l
  induction l with
  | nil => intro acc _; rfl
  | cons tx rest ih =>
    intro acc h
    rw [greedyLoop] at h ⊢
    by_cases hv : value ≤ qAdd acc tx.amount
    · rw [if_pos hv] at h
      exact absurd h (by simp; exact hv)
    · rw [if_neg hv] at h ⊢
      simp only at h ⊢
      rw [ih (qAdd acc tx.amount) h]

/-- Greedy minimality: if the loop started below the target and reached it,
the selection is nonempty and dropping its last element stays below the
target. -/
theorem greedyLoop_minimal (value : ℚ) :
    ∀ (l : List Utxo) (acc : ℚ), acc < value →
      value ≤ (greedyLoop value l acc).2 →
      (greedyLoop value l acc).1 ≠ [] ∧
        acc + sumAmounts (greedyLoop value l acc).1.dropLast < value := by
  intro l
  induction l with
  | nil =>
    intro acc hacc hge
    rw [greedyLoop] at hge
    exact absurd hge (not_le.mpr hacc)
  | cons tx rest ih =>
    intro acc hacc hge
    rw [greedyLoop] at hge ⊢
    by_cases hv : value ≤ qAdd acc tx.amount
    · rw [if_pos hv] at hge ⊢
      refine ⟨by simp, ?_⟩
      simpa [sumAmounts] using hacc
    · rw [if_neg hv] at hge ⊢
      simp only at hge ⊢
      have hacc2 : qAdd acc tx.amount < value := not_le.mp hv
      obtain ⟨hne, hlt⟩ := ih (qAdd acc tx.amount) hacc2 hge
      refine ⟨by simp, ?_⟩
      rw [List.dropLast_cons_of_ne_nil hne]
      simp only [sumAmounts, List.map_cons, List.sum_cons] at hlt ⊢
      have hq : qAdd acc tx.amount = acc + tx.amount := qAdd_eq acc tx.amount
      calc acc + (tx.amount + ((greedyLoop value rest (qAdd acc tx.amount)).1.dropLast.map
            Utxo.amount).sum)
          = qAdd acc tx.amount + ((greedyLoop value rest (qAdd acc tx.amount)).1.dropLast.map
            Utxo.amount).sum := by rw [hq]; ring
        _ < value := hlt

/-- Every kept entry of the selector scan is eligible: spendable, not
coinbase, not the burn address, and wallet-owned. -/
theorem collectValid_eligible (ismine : Bytes → Bool) (burn : Bytes) (limit : Nat) :
    ∀ (l : List Utxo) (c : Nat), ∀ u ∈ collectValid ismine burn limit l c,
      u.spendable = true ∧ u.generated = false ∧ u.address ≠ burn ∧
        ismine u.address = true := by
  intro l
  induction l with
  | nil => intro c u hu; simp [collectValid] at hu
  | cons tx rest ih =>
    intro c u hu
    rw [collectValid] at hu
    by_cases h1 : tx.spendable = false ∨ tx.address = burn ∨ tx.generated = true
    · rw [if_pos h1] at hu; exact ih c u hu
    · rw [if_neg h1] at hu
      push_neg at h1
      obtain ⟨hs, hb, hg⟩ := h1
      by_cases h2 : ismine tx.address = false
      · rw [if_pos h2] at hu; exact ih c u hu
      · rw [if_neg h2] at hu
        have htx : tx.spendable = true ∧ tx.generated = false ∧ tx.address ≠ burn ∧
            ismine tx.address = true :=
          ⟨by simpa using hs, by simpa using hg, hb, by simpa using h2⟩
        by_cases h3 : limit ≤ c + 1
        · rw [if_pos h3] at hu
          rcases List.mem_singleton.mp hu with rfl
          exact htx
        · rw [if_neg h3] at hu
          rcases List.mem_cons.mp hu with rfl | hh
          · exact htx
          · exact ih (c + 1) u hh

/-- The kept-entry cap: starting from count `c`, at most `max (limit - c) 1`
entries are kept. -/
theorem collectValid_length (ismine : Bytes → Bool) (burn : Bytes) (limit : Nat) :
    ∀ (l : List Utxo) (c : Nat),
      (collectValid ismine burn limit l c).length ≤ max (limit - c) 1 := by
  intro l
  induction l with
  | nil => intro c; simp [collectValid]
  | cons tx rest ih =>
    intro c
    rw [collectValid]
    by_cases h1 : tx.spendable = false ∨ tx.address = burn ∨ tx.generated = true
    · rw [if_pos h1]; exact ih c
    · rw [if_neg h1]
      by_cases h2 : ismine tx.address = false
      · rw [if_pos h2]; exact ih c
      · rw [if_neg h2]
        by_cases h3 : limit ≤ c + 1
        · rw [if_pos h3]; simp
        · rw [if_neg h3]
          rw [List.length_cons]
          have := ih (c + 1)
          have hmax : max (limit - (c + 1)) 1 = limit - (c + 1) := by omega
          rw [hmax] at this
          omega

set_option maxHeartbeats 4000000 in
/-- C7 counterexample: the cap counts KEPT entries, not inspected ones.  On a
101-entry unspent list whose first entry is ineligible, the code inspects all
101 entries, keeps 100 and succeeds with total 100; under the claim's reading
("inspects at most 100 entries", modelled by `select_txins_claimed`) only the
first 100 entries would be scanned, leaving 99 eligible and total 99 < 100 —
insufficient funds. -/
theorem c7_selector_cap_counterexample :
    select_txins (fun _ => true) c7unspent 100 burnAddress 100 =
      .ok (List.replicate 100 eligibleUtxo, 100) ∧
    select_txins_claimed (fun _ => true) c7unspent 100 burnAddress 100 =
      .error .insufficientFunds := by
  exact ⟨by decide, by decide⟩

/-- C7 amended: the selector keeps only eligible entries (spendable, not
coinbase, not the burn address, wallet-owned), keeps at most
`max limit 1` of them (the cap counts kept entries — it is not a bound on
inspected entries), stable-sorts the kept pool by ascending confirmations,
and greedily takes a prefix of the sorted pool until the running total
reaches the requested value, failing with insufficient-funds exactly when
the whole kept pool sums below the value. -/
theorem c7_selector_algorithm (ismine : Bytes → Bool) (unspent : List Utxo) (value : ℚ)
    (burn : Bytes) (limit : Nat) :
    (∀ u ∈ collectValid ismine burn limit unspent 0,
        u.spendable = true ∧ u.generated = false ∧ u.address ≠ burn ∧
          ismine u.address = true) ∧
    (collectValid ismine burn limit unspent 0).length ≤ max limit 1 ∧
    (sortByKey (fun u => u.confirmations) (collectValid ismine burn limit unspent 0)).Sorted
      (fun a b => a.confirmations ≤ b.confirmations) ∧
    (sortByKey (fun u => u.confirmations) (collectValid ismine burn limit unspent 0)).Perm
      (collectValid ismine burn limit unspent 0) ∧
    (match select_txins ismine unspent value burn limit with
     | .ok (sel, tot) =>
        sel <+: sortByKey (fun u => u.confirmations) (collectValid ismine burn limit unspent 0) ∧
        tot = sumAmounts sel ∧ value ≤ tot
     | .error e =>
        e = .insufficientFunds ∧
        sumAmounts (sortByKey (fun u => u.confirmations)
          (collectValid ismine burn limit unspent 0)) < value) := by
  haveI htot : IsTotal Utxo (fun a b => a.confirmations ≤ b.confirmations) :=
    ⟨fun a b => Nat.le_total _ _⟩
  haveI htrans : IsTrans Utxo (fun a b => a.confirmations ≤ b.confirmations) :=
    ⟨fun _ _ _ hab hbc => Nat.le_trans hab hbc⟩
  refine ⟨collectValid_eligible ismine burn limit unspent 0, ?_, ?_, ?_, ?_⟩
  · have := collectValid_length ismine burn limit unspent 0
    simpa using this
  · exact List.sorted_insertionSort _ _
  · exact List.perm_insertionSort _ _
  · have hps := greedyLoop_prefix_sum value
      (sortByKey (fun u => u.confirmations) (collectValid ismine burn limit unspent 0)) 0
    have hsh := greedyLoop_short value
      (sortByKey (fun u => u.confirmations) (collectValid ismine burn limit unspent 0)) 0
    rw [select_txins]
    by_cases hlt : (greedyLoop value
        (sortByKey (fun u => u.confirmations) (collectValid ismine burn limit unspent 0)) 0).2 <
        value
    · rw [if_pos hlt]
      refine ⟨rfl, ?_⟩
      rw [← hsh hlt]
      have h2 := hps.2
      rw [zero_add] at h2
      rw [← h2]
      exact hlt
    · rw [if_neg hlt]
      exact ⟨hps.1, by rw [hps.2]; ring, not_lt.mp hlt⟩

/-- Witness for `c7_selector_algorithm`: the membership hypothesis discharged
on the concrete 101-entry pool — the kept entry is eligible. -/
theorem c7_selector_algorithm_witness :
    eligibleUtxo.spendable = true ∧ eligibleUtxo.generated = false ∧
      eligibleUtxo.address ≠ burnAddress ∧
      (fun _ => true : Bytes → Bool) eligibleUtxo.address = true :=
  (c7_selector_algorithm (fun _ => true) c7unspent 100 burnAddress 100).1
    eligibleUtxo (by decide)

/-- C10 counterexample: with requested value 0 the selector succeeds with the
single-UTXO selection, but removing the last element leaves total 0, which is
NOT strictly below the requested value. -/
theorem c10_greedy_prefix_counterexample :
    select_txins (fun _ => true) [c10utxo] 0 burnAddress 100 = .ok ([c10utxo], 5) ∧
    sumAmounts [c10utxo].dropLast = 0 ∧
    ¬(sumAmounts [c10utxo].dropLast < (0 : ℚ)) := by
  refine ⟨by decide, by simp [sumAmounts], ?_⟩
  simp [sumAmounts]

/-- C10 amended: for every positive requested value, a successful selection
is a nonempty prefix of the confirmation-sorted kept pool and removing its
last element leaves a total strictly below the requested value. -/
theorem c10_greedy_prefix_minimal (ismine : Bytes → Bool) (unspent : List Utxo)
    (value : ℚ) (burn : Bytes) (limit : Nat) (sel : List Utxo) (tot : ℚ)
    (hv : 0 < value)
    (h : select_txins ismine unspent value burn limit = .ok (sel, tot)) :
    sel ≠ [] ∧
    sel <+: sortByKey (fun u => u.confirmations) (collectValid ismine burn limit unspent 0) ∧
    sumAmounts sel.dropLast < value := by
  rw [select_txins] at h
  by_cases hlt : (greedyLoop value
      (sortByKey (fun u => u.confirmations) (collectValid ismine burn limit unspent 0)) 0).2 <
      value
  · rw [if_pos hlt] at h
    exact absurd h (by simp)
  · rw [if_neg hlt] at h
    have hpair := Except.ok.inj h
    have hps := greedyLoop_prefix_sum value
      (sortByKey (fun u => u.confirmations) (collectValid ismine burn limit unspent 0)) 0
    have hmin := greedyLoop_minimal value
      (sortByKey (fun u => u.confirmations) (collectValid ismine burn limit unspent 0)) 0
      hv (not_lt.mp hlt)
    have hsel : (greedyLoop value
        (sortByKey (fun u => u.confirmations) (collectValid ismine burn limit unspent 0)) 0).1 =
        sel := congrArg Prod.fst hpair
    rw [hsel] at hmin hps
    refine ⟨hmin.1, hps.1, ?_⟩
    have := hmin.2
    linarith

/-- Witness for `c10_greedy_prefix_minimal` at value 1 on a single 5-coin
UTXO. -/
theorem c10_greedy_prefix_minimal_witness :
    ([c10utxo] : List Utxo) ≠ [] ∧
    [c10utxo] <+: sortByKey (fun u => u.confirmations)
      (collectValid (fun _ => true) burnAddress 100 [c10utxo] 0) ∧
    sumAmounts [c10utxo].dropLast < 1 :=
  c10_greedy_prefix_minimal (fun _ => true) [c10utxo] 1 burnAddress 100 [c10utxo] 5
    (by norm_num) (by decide)

set_option maxHeartbeats 4000000 in
/-- C9 counterexample: when the broadcast of a CHUNK transaction fails with
node error −25, `store_data_in_blockchain` does not return null — the `None`
chunk txid is appended to the list, and `store_chunk_txids` then raises
`AttributeError` from `None.encode()`, which propagates to the caller. -/
theorem c9_error_policy_counterexample :
    c9chunkFailRun = .error PyErr.attrNone ∧
    c9chunkFailRun.map Prod.fst ≠ .ok none := by
  exact ⟨by decide, by decide⟩

set_option maxHeartbeats 4000000 in
/-- C9 amended: the −25/−26 policy lives in `create_and_send_transaction`:
when the broadcast is rejected with code −25 or −26 it returns `None` (state
unchanged), and any other rejection code propagates as the `JSONRPCException`
(first conjunct, for every oracle and transaction whose two signings
succeed).  At the store level, the claim's "returns null" holds only when the
INDEX transaction's broadcast fails with −25/−26 (third conjunct); a chunk
broadcast failing with −25/−26 instead poisons the chunk-txid list with
`None` and the store raises `AttributeError` (second conjunct); a chunk
broadcast failing with any other code, e.g. −7, propagates as the RPC
exception (fourth conjunct). -/
theorem c9_error_policy (O : Oracle) (w : World) (txins : List Utxo)
    (txouts : List TxOut) (c : Int) (tx1 tx2 : Bytes)
    (hpack1 : packtx txins txouts 0 1 = some tx1)
    (herr : (O.sign (hexlify tx1)).errs = false)
    (hcom : (O.sign (hexlify tx1)).complete = true)
    (hpack2 : packtx txins
      (updateChange txouts (calculate_transaction_fee O.feePerKb (O.sign (hexlify tx1))))
      0 1 = some tx2)
    (hcom2 : (O.sign (hexlify tx2)).complete = true)
    (hsend : O.sendResult w.nSend = .error c) :
    ((c = -25 ∨ c = -26) → create_and_send_transaction O txins txouts w = .ok (none, w)) ∧
    (c ≠ -25 → c ≠ -26 → create_and_send_transaction O txins txouts w = .error (.rpc c)) ∧
    c9chunkFailRun = .error PyErr.attrNone ∧
    c9indexFailRun.map Prod.fst = .ok none ∧
    c9otherFailRun = .error (.rpc (-7)) := by
  have hct1 : create_transaction txins txouts = .ok (hexlify tx1) := by
    rw [create_transaction, hpack1]
  have hct2 : create_transaction txins
      (updateChange txouts (calculate_transaction_fee O.feePerKb (O.sign (hexlify tx1)))) =
      .ok (hexlify tx2) := by
    rw [create_transaction, hpack2]
  have hred : create_and_send_transaction O txins txouts w =
      (if c = -25 ∨ c = -26 then .ok (none, w) else .error (.rpc c)) := by
    simp only [create_and_send_transaction, hct1, herr, hcom, hct2, hcom2,
      send_transaction, hsend, Bool.false_eq_true, Bool.true_eq_false, if_false]
  refine ⟨fun hc => ?_, fun h25 h26 => ?_, by decide, by decide, by decide⟩
  · rw [hred, if_pos hc]
  · rw [hred, if_neg (by tauto)]

set_option maxHeartbeats 2000000 in
/-- Witness for `c9_error_policy`: with every broadcast rejected with −26,
`create_and_send_transaction` on a concrete transaction returns `None` with
the world unchanged. -/
theorem c9_error_policy_witness :
    create_and_send_transaction c9rejectOracle [c4utxo] c9wOuts World.init =
      .ok (none, World.init) :=
  (c9_error_policy c9rejectOracle World.init [c4utxo] c9wOuts (-26) c9wTx1 c9wTx2
    (by decide) (by decide) (by decide) (by decide) (by decide) (by decide)).1 (Or.inr rfl)
